import Mathlib

/-!
Verification of the metalsmith-handlebars plugin (`src/index.ts`).

The development shallowly embeds the plugin's data model and operations:
JavaScript objects become association lists (`Jmap`), Node's `path`
functions are reimplemented (`NodePath`), the Handlebars engine is an
abstract parameter `E : String → Ctx → String` (compile + render of one
template source against one context), and the async orchestration is
modelled by sequential evaluation in source order, which matches the
synchronous promise-executor semantics of the plugin.
-/

namespace MH

/-- JavaScript-style primitive values stored in a template context. -/
inductive Value where
  | vstr : String → Value
  | vnum : Int → Value
  | vbool : Bool → Value
  | vnull : Value
deriving Repr, DecidableEq

/-- JavaScript truthiness of a context value (`if (layout)` in the source). -/
def Value.truthy : Value → Bool
  | .vstr s => !(s = "")
  | .vnum n => !(n = 0)
  | .vbool b => b
  | .vnull => false

/-- First-match lookup in a JavaScript-object model (association list). -/
def Jmap.get {α : Type} : List (String × α) → String → Option α
  | [], _ => none
  | p :: rest, k => if p.1 = k then some p.2 else Jmap.get rest k

/-- JavaScript property write: replace the binding in place if the key
exists, otherwise append it at the end (insertion order of JS objects). -/
def Jmap.set {α : Type} : List (String × α) → String → α → List (String × α)
  | [], k, v => [(k, v)]
  | p :: rest, k, v => if p.1 = k then (k, v) :: rest else p :: Jmap.set rest k v

/-- Rest-destructuring / `delete`: drop every binding of the key. -/
def Jmap.erase {α : Type} (m : List (String × α)) (k : String) : List (String × α) :=
  m.filter (fun p => !(p.1 = k))

/-- `Object.keys`. -/
def Jmap.keys {α : Type} (m : List (String × α)) : List String :=
  m.map Prod.fst

/-- Whether the object carries a binding for the key. -/
def Jmap.hasKey {α : Type} (m : List (String × α)) (k : String) : Bool :=
  m.any (fun p => p.1 = k)

/-- JavaScript spread `\x7b...a, ...b\x7d`: write every binding of `b` over `a`. -/
def Jmap.merge {α : Type} (a b : List (String × α)) : List (String × α) :=
  b.foldl (fun m p => Jmap.set m p.1 p.2) a

/-- A template-rendering context, as passed to the engine. -/
abbrev Ctx := List (String × Value)

/-- Whether the first list is an initial run of the second. -/
def listLeadsWith : List Char → List Char → Bool
  | [], _ => true
  | _ :: _, [] => false
  | x :: xs, y :: ys => x = y && listLeadsWith xs ys

/-- `String.startsWith`, restated over character lists so that it reduces. -/
def strStartsWith (s pre : String) : Bool :=
  listLeadsWith pre.toList s.toList

/-- `String.endsWith`, restated over character lists so that it reduces. -/
def strEndsWith (s post : String) : Bool :=
  listLeadsWith post.toList.reverse s.toList.reverse

/-- Drop the last `n` characters of a string (`String.dropRight`). -/
def strDropRight (s : String) (n : Nat) : String :=
  String.mk (s.toList.take (s.toList.length - n))

/-- Index of the last occurrence of a character in a character list. -/
def NodePath.lastIndexOf (c : Char) : List Char → Option Nat
  | [] => none
  | x :: rest =>
    match NodePath.lastIndexOf c rest with
    | some i => some (i + 1)
    | none => if x = c then some 0 else none

/-- Last path component after ignoring trailing slashes (Node
`path.basename` without suffix stripping); empty for the empty path. -/
def NodePath.lastComponent (p : String) : String :=
  match NodePath.lastIndexOf '/' ((p.toList.reverse.dropWhile (fun c => c = '/')).reverse) with
  | none => String.mk ((p.toList.reverse.dropWhile (fun c => c = '/')).reverse)
  | some i => String.mk (((p.toList.reverse.dropWhile (fun c => c = '/')).reverse).drop (i + 1))

/-- Extension of a base name, Node style: from the last dot, except that a
dot in first position (hidden file) or the special name `..` has no
extension. -/
def NodePath.extOfBase (base : String) : String :=
  if base = ".." then ""
  else
    match NodePath.lastIndexOf '.' base.toList with
    | none => ""
    | some i => if i = 0 then "" else String.mk (base.toList.drop i)

/-- Node `path.extname`. -/
def NodePath.extname (p : String) : String :=
  NodePath.extOfBase (NodePath.lastComponent p)

/-- Node `path.basename(p, ext)`: last component with the suffix `ext`
stripped when it is a proper suffix. -/
def NodePath.basenameStrip (p ext : String) : String :=
  let base := NodePath.lastComponent p
  if !(ext = "") && !(base = ext) && strEndsWith base ext then
    strDropRight base ext.toList.length
  else base

/-- The fields of Node `path.parse` used by the plugin. -/
structure PathParts where
  dir : String
  name : String
  ext : String
deriving Repr, DecidableEq

/-- Node `path.parse`, restricted to the `dir`, `name` and `ext` fields. -/
def NodePath.parse (p : String) : PathParts :=
  let cs := p.toList
  let dirBase : String × String :=
    match NodePath.lastIndexOf '/' cs with
    | none => ("", p)
    | some i => (if i = 0 then "/" else String.mk (cs.take i), String.mk (cs.drop (i + 1)))
  let e := NodePath.extOfBase dirBase.2
  { dir := dirBase.1, name := strDropRight dirBase.2 e.toList.length, ext := e }

/-- Node `path.join` of a directory and a file name. -/
def NodePath.join (d f : String) : String :=
  if d = "" then f
  else if d = "/" then "/" ++ f
  else if strEndsWith d "/" then d ++ f
  else d ++ "/" ++ f

/-- The shared `settings` record built once per run by the plugin. -/
structure Settings where
  metadata : Ctx
  extension : String
  layouts : List (String × String)
deriving Repr

/-- The error thrown by `compile` for an unresolvable layout name. -/
def layoutErrMsg (layout filename : String) : String :=
  "Layout \x27" ++ layout ++ "\x27 doesn\x27t exist. (from \x27" ++ filename ++ "\x27)"

/-- The TypeError Node raises when `path.basename` receives a non-string
truthy `layout` value. -/
def typeErrMsg : String :=
  "TypeError: the path argument must be of type string"

/-- The fallthrough path of the plugin's `compile` (lines 138-145): when
no layout applies, a file whose extension matches is templated in place
against its locals (the context minus the consumed `layout` key), and any
other file passes through untouched. -/
def plainCompile {M : Type → Type} [Monad M] (E : String → Ctx → M String)
    (filename : String) (contents : String) (context : Ctx) (settings : Settings) :
    M (Except String String) :=
  if NodePath.extname filename = settings.extension then do
    let r ← E contents (Jmap.erase context "layout")
    pure (Except.ok r)
  else
    pure (Except.ok contents)

/-- The `compile` function of the plugin, translated over an arbitrary
monad so that engine invocations can be observed. `E src ctx` stands for
`Handlebars.compile(src)(ctx)`. Mirrors `src/index.ts` lines 116-146:
split the `layout` directive off the context; a truthy layout is resolved
by base name (a falsy lookup result -- absent or empty source -- throws);
the contents are recursively compiled against the remaining locals when
the file extension matches; anything without a truthy layout falls
through to the in-place templating path `plainCompile`. -/
def compileM {M : Type → Type} [Monad M] (E : String → Ctx → M String)
    (filename : String) (contents : String) (context : Ctx) (settings : Settings) :
    M (Except String String) :=
  match h : Jmap.get context "layout" with
  | some lv =>
    if lv.truthy then
      match lv with
      | Value.vstr layout =>
        let name := NodePath.basenameStrip layout settings.extension
        match Jmap.get settings.layouts name with
        | none => pure (Except.error (layoutErrMsg layout filename))
        | some src =>
          if src = "" then pure (Except.error (layoutErrMsg layout filename))
          else do
            let inner ←
              if NodePath.extname filename = settings.extension then
                compileM E filename contents (Jmap.erase context "layout") settings
              else
                pure (Except.ok contents)
            match inner with
            | Except.error e => pure (Except.error e)
            | Except.ok innerStr => do
              let r ← E src (Jmap.set context "contents" (Value.vstr innerStr))
              pure (Except.ok r)
      | _ => pure (Except.error typeErrMsg)
    else plainCompile E filename contents context settings
  | none => plainCompile E filename contents context settings
termination_by context.length
decreasing_by
  have hmem : ∀ (m : List (String × Value)) (w : Value),
      Jmap.get m "layout" = some w → ∃ p ∈ m, p.1 = "layout" := by
    intro m
    induction m with
    | nil => intro w hw; simp [Jmap.get] at hw
    | cons q rest ih =>
      intro w hw
      by_cases hq : q.1 = "layout"
      · exact ⟨q, List.mem_cons_self q rest, hq⟩
      · rw [Jmap.get, if_neg hq] at hw
        obtain ⟨p, hp, hpk⟩ := ih w hw
        exact ⟨p, List.mem_cons_of_mem q hp, hpk⟩
  obtain ⟨p, hp, hpk⟩ := hmem context _ h
  simp only [Jmap.erase]
  refine List.length_filter_lt_length_iff_exists.mpr ⟨p, hp, ?_⟩
  simp [hpk]

/-- The plugin's `compile` with a pure engine. -/
def compile (E : String → Ctx → String) (filename contents : String)
    (context : Ctx) (settings : Settings) : Except String String :=
  compileM (M := Id) (fun src ctx => E src ctx) filename contents context settings

/-- An engine that invokes a pure engine and counts its invocations. -/
def countingEngine (E : String → Ctx → String) (src : String) (ctx : Ctx) :
    StateM Nat String := do
  modify (fun n => n + 1)
  pure (E src ctx)

/-- Number of engine render invocations performed by one `compile` call. -/
def renderCalls (E : String → Ctx → String) (filename contents : String)
    (context : Ctx) (settings : Settings) : Nat :=
  ((compileM (countingEngine E) filename contents context settings).run 0).2

/-- The context carries a truthy `layout` directive. -/
def layoutTruthy (ctx : Ctx) : Bool :=
  match Jmap.get ctx "layout" with
  | some v => v.truthy
  | none => false

/-- The `layout` directive is a truthy string resolving to a layout with a
truthy (nonempty) source, i.e. `compile` takes the layout branch without
throwing. -/
def layoutResolves (ctx : Ctx) (s : Settings) : Bool :=
  match Jmap.get ctx "layout" with
  | some (Value.vstr L) =>
    !(L = "") &&
      (match Jmap.get s.layouts (NodePath.basenameStrip L s.extension) with
       | some src => !(src = "")
       | none => false)
  | some _ => false
  | none => false

/-- `settings.layouts[name]` is truthy (the lookup check in `compile`). -/
def layoutSourceOk (layouts : List (String × String)) (name : String) : Bool :=
  match Jmap.get layouts name with
  | some src => !(src = "")
  | none => false

/-- A metalsmith virtual file: its `contents` plus the other fields
(frontmatter locals), which `render` splits by rest-destructuring. -/
structure VFile where
  contents : String
  locals : Ctx
deriving Repr, DecidableEq

/-- The metalsmith file set, path-keyed. -/
abbrev FileSet := List (String × VFile)

/-- The plugin's `render`: split `contents` from the locals, compile
against global metadata merged with the locals (locals override), and
rewrite `contents` with the result (lines 92-106 of the source). -/
def render (E : String → Ctx → String) (filename : String) (file : VFile)
    (settings : Settings) : Except String VFile :=
  (compile E filename file.contents (Jmap.merge settings.metadata file.locals) settings).map
    (fun out => { contents := out, locals := file.locals })

/-- `Promise.all(validFiles.map(render))`: each promise executor runs
synchronously in array order, mutating its file's `contents`; the
aggregate rejects with the first rejection in that order while later
executors still run. A missing key would make the destructuring of
`undefined` throw a TypeError. -/
def renderAll (E : String → Ctx → String) (settings : Settings) :
    List String → FileSet → FileSet × Option String
  | [], files => (files, none)
  | f :: rest, files =>
    match Jmap.get files f with
    | none =>
      let r := renderAll E settings rest files
      (r.1, some typeErrMsg)
    | some file =>
      match render E f file settings with
      | Except.ok v => renderAll E settings rest (Jmap.set files f v)
      | Except.error e =>
        let r := renderAll E settings rest files
        (r.1, some e)

/-- The new path computed by `move`: same directory, base name, `.html`. -/
def moveTarget (filename : String) : String :=
  let pr := NodePath.parse filename
  NodePath.join pr.dir (pr.name ++ ".html")

/-- The plugin's `move` (lines 152-161): when the new name differs and the
old extension matches, copy the value to the new key and delete the old
key; otherwise leave the file set untouched. -/
def move {α : Type} (files : List (String × α)) (filename extension : String) :
    List (String × α) :=
  if !(moveTarget filename = filename) && ((NodePath.parse filename).ext = extension) then
    match Jmap.get files filename with
    | some v => Jmap.erase (Jmap.set files (moveTarget filename) v) filename
    | none => files
  else files

/-- The sequential rename pass over the selected files. -/
def moveAll {α : Type} (files : List (String × α)) (valid : List String)
    (extension : String) : List (String × α) :=
  valid.foldl (fun fs f => move fs f extension) files

/-- `settings.metadata`: the working directory injected under `__dirname`,
then the host metadata spread over it. -/
def settingsMetadata (dir : String) (meta : Ctx) : Ctx :=
  Jmap.merge [("__dirname", Value.vstr dir)] meta

/-- The `settings` record the plugin builds before compiling. -/
def mkSettings (dir : String) (meta : Ctx) (extension : String)
    (layouts : List (String × String)) : Settings :=
  { metadata := settingsMetadata dir meta, extension := extension, layouts := layouts }

/-- The run after resources are loaded: render every selected file, then,
only if every render succeeded, perform the rename pass. -/
def runLoaded (E : String → Ctx → String) (extension dir : String)
    (layouts : List (String × String)) (meta : Ctx) (valid : List String)
    (files : FileSet) : FileSet × Option String :=
  match (renderAll E (mkSettings dir meta extension layouts) valid files).2 with
  | some e => ((renderAll E (mkSettings dir meta extension layouts) valid files).1, some e)
  | none =>
    (moveAll (renderAll E (mkSettings dir meta extension layouts) valid files).1
      valid extension, none)

/-- A filesystem entry: a text file or a directory listing child names. -/
inductive FSEntry where
  | file : String → FSEntry
  | subdir : List String → FSEntry
deriving Repr, DecidableEq

/-- A filesystem: absolute path keyed entries. -/
abbrev FS := List (String × FSEntry)

/-- Errors surfaced by the modelled filesystem calls. -/
inductive IOErr where
  | enoent : String → IOErr
  | eisdir : String → IOErr
  | enotdir : String → IOErr
deriving Repr, DecidableEq

/-- `fs.readdir`: lists a directory, errors on a missing path. -/
def fsReaddir (fs : FS) (d : String) : Except IOErr (List String) :=
  match Jmap.get fs d with
  | some (FSEntry.subdir names) => Except.ok names
  | some (FSEntry.file _) => Except.error (IOErr.enotdir d)
  | none => Except.error (IOErr.enoent d)

/-- `fs.readFile`: errors with EISDIR on a directory. -/
def fsReadFile (fs : FS) (p : String) : Except IOErr String :=
  match Jmap.get fs p with
  | some (FSEntry.file c) => Except.ok c
  | some (FSEntry.subdir _) => Except.error (IOErr.eisdir p)
  | none => Except.error (IOErr.enoent p)

/-- The plugin's `asyncRead` (lines 241-258): EISDIR resolves to null
(silent skip); other errors are raised. -/
def asyncRead (fs : FS) (p : String) : Except IOErr (Option String) :=
  match fsReadFile fs p with
  | Except.ok c => Except.ok (some c)
  | Except.error (IOErr.eisdir _) => Except.ok none
  | Except.error e => Except.error e

/-- `path.resolve(directory, file)` for a listed child name. -/
def resolveChild (d f : String) : String :=
  d ++ "/" ++ f

/-- The plugin's `loadFiles` (lines 224-236): list a directory and resolve
each entry against it; a readdir failure is propagated. -/
def loadFiles (fs : FS) (d : String) : Except IOErr (List String) :=
  (fsReaddir fs d).map (fun names => names.map (resolveChild d))

/-- The loop body of `loadLayouts`: skip names with the wrong extension,
read each remaining file, skip null/empty reads, store basename to
contents. -/
def loadLayoutsGo (fs : FS) (extension : String) :
    List String → List (String × String) → Except IOErr (List (String × String))
  | [], m => Except.ok m
  | p :: rest, m =>
    if !((NodePath.parse p).ext = extension) then loadLayoutsGo fs extension rest m
    else
      match asyncRead fs p with
      | Except.error e => Except.error e
      | Except.ok none => loadLayoutsGo fs extension rest m
      | Except.ok (some c) =>
        if c = "" then loadLayoutsGo fs extension rest m
        else loadLayoutsGo fs extension rest (Jmap.set m (NodePath.parse p).name c)

/-- The plugin's `loadLayouts`. -/
def loadLayouts (fs : FS) (d extension : String) :
    Except IOErr (List (String × String)) :=
  match loadFiles fs d with
  | Except.error e => Except.error e
  | Except.ok names => loadLayoutsGo fs extension names []

/-- `path.resolve(metalsmith.directory(), configured)`. -/
def resolvePath (base p : String) : String :=
  if strStartsWith p "/" then p else base ++ "/" ++ p

/-- The orchestrator's layout loading: an unset `layouts` option leaves
the layout map empty; a set option resolves the path and loads. -/
def loadLayoutsOpt (fs : FS) (base : String) (od : Option String)
    (extension : String) : Except IOErr (List (String × String)) :=
  match od with
  | none => Except.ok []
  | some d => loadLayouts fs (resolvePath base d) extension

/-- Rendering of a filesystem error surfaced through `done(err)`. -/
def ioErrMsg : IOErr → String
  | IOErr.enoent p => "ENOENT: no such file or directory, scandir \x27" ++ p ++ "\x27"
  | IOErr.eisdir p => "EISDIR: illegal operation on a directory, read \x27" ++ p ++ "\x27"
  | IOErr.enotdir p => "ENOTDIR: not a directory, scandir \x27" ++ p ++ "\x27"

/-- The error thrown when the pattern selects no files. -/
def patternErrMsg (pattern : String) : String :=
  "Pattern \x27" ++ pattern ++ "\x27 did not match any files."

/-- The recognized plugin options (partials and helpers are global
template-engine registrations and do not influence the modelled claims). -/
structure Options where
  pattern : String
  extension : String
  layouts : Option String
deriving Repr, DecidableEq

/-- The plugin body (lines 20-87): select files by pattern, fail on an
empty selection, load layouts, render all selected files concurrently,
and rename only after every render succeeded. `glob` abstracts the
multimatch collaborator. -/
def plugin (glob : List String → String → List String) (E : String → Ctx → String)
    (fs : FS) (opts : Options) (msDir : String) (meta : Ctx) (files : FileSet) :
    FileSet × Option String :=
  if (glob (Jmap.keys files) opts.pattern).length = 0 then
    (files, some (patternErrMsg opts.pattern))
  else
    match loadLayoutsOpt fs msDir opts.layouts opts.extension with
    | Except.error e => (files, some (ioErrMsg e))
    | Except.ok layouts =>
      runLoaded E opts.extension msDir layouts meta
        (glob (Jmap.keys files) opts.pattern) files

/-- A substring witness: `t` occurs inside `s`. -/
def containsSub (s t : String) : Prop :=
  ∃ a b, s = a ++ (t ++ b)

/-- A trivial concrete engine for witnesses and counterexamples: renders a
template source to itself, ignoring the context. -/
def idEngine : String → Ctx → String := fun src _ => src

/-- The file set of the repository's `move()` unit test. -/
def exampleFiles : List (String × String) :=
  [("foo.html", "1234"), ("foobar.md", "abcd"), ("bar.hbs", "5678")]

/-- A glob standing for a match-everything pattern. -/
def globAll : List String → String → List String := fun keys _ => keys

theorem Jmap.get_cons {α : Type} (p : String × α) (rest : List (String × α))
    (k : String) :
    Jmap.get (p :: rest) k = if p.1 = k then some p.2 else Jmap.get rest k := rfl

theorem Jmap.set_cons {α : Type} (p : String × α) (rest : List (String × α))
    (k : String) (v : α) :
    Jmap.set (p :: rest) k v =
      if p.1 = k then (k, v) :: rest else p :: Jmap.set rest k v := rfl

theorem Jmap.erase_cons {α : Type} (p : String × α) (rest : List (String × α))
    (k : String) :
    Jmap.erase (p :: rest) k =
      if p.1 = k then Jmap.erase rest k else p :: Jmap.erase rest k := by
  by_cases hp : p.1 = k <;> simp [Jmap.erase, List.filter_cons, hp]

theorem Jmap.merge_cons {α : Type} (a : List (String × α)) (p : String × α)
    (rest : List (String × α)) :
    Jmap.merge a (p :: rest) = Jmap.merge (Jmap.set a p.1 p.2) rest := rfl

theorem Jmap.hasKey_cons {α : Type} (p : String × α) (rest : List (String × α))
    (k : String) :
    Jmap.hasKey (p :: rest) k = (decide (p.1 = k) || Jmap.hasKey rest k) := by
  simp [Jmap.hasKey]

theorem Jmap.get_erase_self {α : Type} (m : List (String × α)) (k : String) :
    Jmap.get (Jmap.erase m k) k = none := by
  induction m with
  | nil => rfl
  | cons p rest ih =>
    rw [Jmap.erase_cons]
    by_cases hp : p.1 = k
    · rw [if_pos hp]
      exact ih
    · rw [if_neg hp, Jmap.get_cons, if_neg hp]
      exact ih

theorem Jmap.get_erase_ne {α : Type} (m : List (String × α)) (k j : String)
    (h : j ≠ k) : Jmap.get (Jmap.erase m k) j = Jmap.get m j := by
  induction m with
  | nil => rfl
  | cons p rest ih =>
    rw [Jmap.erase_cons, Jmap.get_cons]
    by_cases hp : p.1 = k
    · have hpj : ¬(p.1 = j) := fun hpj => h (hpj.symm.trans hp)
      rw [if_pos hp, if_neg hpj]
      exact ih
    · rw [if_neg hp, Jmap.get_cons]
      by_cases hj : p.1 = j
      · rw [if_pos hj, if_pos hj]
      · rw [if_neg hj, if_neg hj]
        exact ih

theorem Jmap.erase_erase {α : Type} (m : List (String × α)) (k : String) :
    Jmap.erase (Jmap.erase m k) k = Jmap.erase m k := by
  simp only [Jmap.erase, List.filter_filter]
  congr 1
  funext p
  by_cases hp : p.1 = k <;> simp [hp]

theorem Jmap.get_set_self {α : Type} (m : List (String × α)) (k : String) (v : α) :
    Jmap.get (Jmap.set m k v) k = some v := by
  induction m with
  | nil => simp [Jmap.set, Jmap.get]
  | cons p rest ih =>
    rw [Jmap.set_cons]
    by_cases hp : p.1 = k
    · rw [if_pos hp, Jmap.get_cons, if_pos rfl]
    · rw [if_neg hp, Jmap.get_cons, if_neg hp]
      exact ih

theorem Jmap.get_set_ne {α : Type} (m : List (String × α)) (k : String) (v : α)
    (j : String) (h : j ≠ k) : Jmap.get (Jmap.set m k v) j = Jmap.get m j := by
  induction m with
  | nil =>
    show Jmap.get [(k, v)] j = none
    rw [Jmap.get_cons, if_neg (Ne.symm h)]
    rfl
  | cons p rest ih =>
    rw [Jmap.set_cons]
    by_cases hp : p.1 = k
    · have hpj : ¬(p.1 = j) := fun hpj => h (hpj.symm.trans hp)
      rw [if_pos hp, Jmap.get_cons, if_neg (Ne.symm h), Jmap.get_cons, if_neg hpj]
    · rw [if_neg hp, Jmap.get_cons, Jmap.get_cons]
      by_cases hj : p.1 = j
      · rw [if_pos hj, if_pos hj]
      · rw [if_neg hj, if_neg hj]
        exact ih

theorem Jmap.keys_set_of_get {α : Type} (m : List (String × α)) (k : String)
    (v w : α) (h : Jmap.get m k = some w) :
    Jmap.keys (Jmap.set m k v) = Jmap.keys m := by
  induction m with
  | nil => simp [Jmap.get] at h
  | cons p rest ih =>
    rw [Jmap.set_cons]
    by_cases hp : p.1 = k
    · rw [if_pos hp]
      show k :: Jmap.keys rest = p.1 :: Jmap.keys rest
      rw [hp]
    · rw [Jmap.get_cons, if_neg hp] at h
      rw [if_neg hp]
      show p.1 :: Jmap.keys (Jmap.set rest k v) = p.1 :: Jmap.keys rest
      rw [ih h]

theorem Jmap.set_eq_self_of_get {α : Type} (m : List (String × α)) (k : String)
    (v : α) (h : Jmap.get m k = some v) : Jmap.set m k v = m := by
  induction m with
  | nil => simp [Jmap.get] at h
  | cons p rest ih =>
    rw [Jmap.set_cons]
    by_cases hp : p.1 = k
    · rw [Jmap.get_cons, if_pos hp] at h
      obtain rfl : p.2 = v := by injection h
      rw [if_pos hp, ← hp]
    · rw [Jmap.get_cons, if_neg hp] at h
      rw [if_neg hp, ih h]

theorem Jmap.get_eq_none_of_hasKey_false {α : Type} (m : List (String × α))
    (k : String) (h : Jmap.hasKey m k = false) : Jmap.get m k = none := by
  induction m with
  | nil => rfl
  | cons p rest ih =>
    rw [Jmap.hasKey_cons, Bool.or_eq_false_iff] at h
    have hp : ¬(p.1 = k) := by simpa using h.1
    rw [Jmap.get_cons, if_neg hp]
    exact ih h.2

theorem Jmap.erase_of_hasKey_false {α : Type} (m : List (String × α))
    (k : String) (h : Jmap.hasKey m k = false) : Jmap.erase m k = m := by
  induction m with
  | nil => rfl
  | cons p rest ih =>
    rw [Jmap.hasKey_cons, Bool.or_eq_false_iff] at h
    have hp : ¬(p.1 = k) := by simpa using h.1
    rw [Jmap.erase_cons, if_neg hp, ih h.2]

theorem Jmap.hasKey_false_of_not_mem_keys {α : Type} (m : List (String × α))
    (k : String) (h : k ∉ Jmap.keys m) : Jmap.hasKey m k = false := by
  induction m with
  | nil => rfl
  | cons p rest ih =>
    simp only [Jmap.keys, List.map_cons, List.mem_cons, not_or] at h
    rw [Jmap.hasKey_cons, Bool.or_eq_false_iff]
    constructor
    · simpa using fun hpk => h.1 hpk.symm
    · exact ih (by simpa [Jmap.keys] using h.2)

theorem Jmap.get_merge_right_absent {α : Type} (b : List (String × α)) :
    ∀ (a : List (String × α)) (k : String), Jmap.hasKey b k = false →
      Jmap.get (Jmap.merge a b) k = Jmap.get a k := by
  induction b with
  | nil => intro a k _; rfl
  | cons p rest ih =>
    intro a k h
    rw [Jmap.hasKey_cons, Bool.or_eq_false_iff] at h
    have hp : ¬(p.1 = k) := by simpa using h.1
    rw [Jmap.merge_cons, ih (Jmap.set a p.1 p.2) k h.2]
    exact Jmap.get_set_ne a p.1 p.2 k (fun hk => hp hk.symm)

theorem Jmap.get_merge_right {α : Type} (b : List (String × α)) :
    ∀ (a : List (String × α)) (k : String) (v : α), (Jmap.keys b).Nodup →
      Jmap.get b k = some v → Jmap.get (Jmap.merge a b) k = some v := by
  induction b with
  | nil => intro a k v _ h; simp [Jmap.get] at h
  | cons p rest ih =>
    intro a k v hnd h
    have hnd' : p.1 ∉ Jmap.keys rest ∧ (Jmap.keys rest).Nodup := by
      simpa [Jmap.keys] using List.nodup_cons.mp hnd
    rw [Jmap.merge_cons]
    by_cases hp : p.1 = k
    · rw [Jmap.get_cons, if_pos hp] at h
      obtain rfl : p.2 = v := by injection h
      rw [Jmap.get_merge_right_absent rest (Jmap.set a p.1 p.2) k
        (Jmap.hasKey_false_of_not_mem_keys rest k (hp ▸ hnd'.1))]
      rw [← hp]
      exact Jmap.get_set_self a p.1 p.2
    · rw [Jmap.get_cons, if_neg hp] at h
      exact ih (Jmap.set a p.1 p.2) k v hnd'.2 h

theorem plainCompile_id (E : String → Ctx → String) (f c : String) (ctx : Ctx)
    (s : Settings) :
    plainCompile (M := Id) (fun src ictx => E src ictx) f c ctx s =
      (if NodePath.extname f = s.extension then Except.ok (E c (Jmap.erase ctx "layout"))
       else Except.ok c) := by
  unfold plainCompile
  split <;> rfl

theorem compileM_get_none {M : Type → Type} [Monad M] (E : String → Ctx → M String)
    (f c : String) (ctx : Ctx) (s : Settings) (h : Jmap.get ctx "layout" = none) :
    compileM E f c ctx s = plainCompile E f c ctx s := by
  rw [compileM.eq_def]
  split
  · rename_i lv heq
    rw [h] at heq
    cases heq
  · rfl

theorem compileM_get_falsy {M : Type → Type} [Monad M] (E : String → Ctx → M String)
    (f c : String) (ctx : Ctx) (s : Settings) (lv : Value)
    (h : Jmap.get ctx "layout" = some lv) (hf : lv.truthy = false) :
    compileM E f c ctx s = plainCompile E f c ctx s := by
  rw [compileM.eq_def]
  split
  · rename_i lv2 heq
    rw [h] at heq
    injection heq with heq
    rw [if_neg (by rw [← heq, hf]; exact Bool.false_ne_true)]
  · rfl

theorem compile_get_none (E : String → Ctx → String) (f c : String) (ctx : Ctx)
    (s : Settings) (h : Jmap.get ctx "layout" = none) :
    compile E f c ctx s =
      (if NodePath.extname f = s.extension then Except.ok (E c (Jmap.erase ctx "layout"))
       else Except.ok c) := by
  unfold compile
  rw [compileM_get_none _ _ _ _ _ h]
  exact plainCompile_id E f c ctx s

theorem compile_layout (E : String → Ctx → String) (f c : String) (ctx : Ctx)
    (s : Settings) (L src : String)
    (hL : Jmap.get ctx "layout" = some (Value.vstr L)) (hT : L ≠ "")
    (hsrc : Jmap.get s.layouts (NodePath.basenameStrip L s.extension) = some src)
    (hne : src ≠ "") :
    compile E f c ctx s = Except.ok (E src (Jmap.set ctx "contents" (Value.vstr
      (if NodePath.extname f = s.extension then E c (Jmap.erase ctx "layout") else c)))) := by
  unfold compile
  rw [compileM.eq_def]
  split
  case _ lv heq =>
    rw [hL] at heq
    injection heq with heq
    subst heq
    rw [if_pos (by simp [Value.truthy, hT])]
    simp only [hsrc]
    rw [if_neg hne]
    by_cases hx : NodePath.extname f = s.extension
    · rw [if_pos hx, if_pos hx]
      have hinner : compileM (M := Id) (fun src2 ictx => E src2 ictx) f c
          (Jmap.erase ctx "layout") s = Except.ok (E c (Jmap.erase ctx "layout")) := by
        have h0 := compile_get_none E f c (Jmap.erase ctx "layout") s
          (Jmap.get_erase_self ctx "layout")
        rw [if_pos hx, Jmap.erase_erase] at h0
        exact h0
      rw [hinner]
      rfl
    · rw [if_neg hx, if_neg hx]
      rfl
  case _ heq =>
    rw [hL] at heq
    cases heq

theorem compile_layout_missing (E : String → Ctx → String) (f c : String)
    (ctx : Ctx) (s : Settings) (L : String)
    (hL : Jmap.get ctx "layout" = some (Value.vstr L)) (hT : L ≠ "")
    (hmiss : layoutSourceOk s.layouts (NodePath.basenameStrip L s.extension) = false) :
    compile E f c ctx s = Except.error (layoutErrMsg L f) := by
  unfold compile
  rw [compileM.eq_def]
  split
  case _ lv heq =>
    rw [hL] at heq
    injection heq with heq
    subst heq
    rw [if_pos (by simp [Value.truthy, hT])]
    unfold layoutSourceOk at hmiss
    rcases hget : Jmap.get s.layouts (NodePath.basenameStrip L s.extension) with _ | src
    · simp only [hget]
      rfl
    · rw [hget] at hmiss
      have hsrc : src = "" := by simpa using hmiss
      simp only [hget, if_pos hsrc]
      rfl
  case _ heq =>
    rw [hL] at heq
    cases heq

theorem stateRun_bind {σ α β : Type} (m : StateM σ α) (k : α → StateM σ β) (s : σ) :
    (m >>= k).run s = (k (m.run s).1).run (m.run s).2 := rfl

theorem plainCompile_count (E : String → Ctx → String) (f c : String) (ctx : Ctx)
    (s : Settings) (n : Nat) :
    (plainCompile (countingEngine E) f c ctx s).run n =
      (if NodePath.extname f = s.extension
       then (Except.ok (E c (Jmap.erase ctx "layout")), n + 1)
       else (Except.ok c, n)) := by
  unfold plainCompile countingEngine
  split <;> rfl

theorem compileM_count_layout (E : String → Ctx → String) (f c : String)
    (ctx : Ctx) (s : Settings) (L src : String) (n : Nat)
    (hL : Jmap.get ctx "layout" = some (Value.vstr L)) (hT : L ≠ "")
    (hsrc : Jmap.get s.layouts (NodePath.basenameStrip L s.extension) = some src)
    (hne : src ≠ "") :
    (compileM (countingEngine E) f c ctx s).run n =
      (Except.ok (E src (Jmap.set ctx "contents" (Value.vstr
        (if NodePath.extname f = s.extension then E c (Jmap.erase ctx "layout") else c)))),
       n + (if NodePath.extname f = s.extension then 2 else 1)) := by
  rw [compileM.eq_def]
  split
  case _ lv heq =>
    rw [hL] at heq
    injection heq with heq
    subst heq
    rw [if_pos (by simp [Value.truthy, hT])]
    simp only [hsrc]
    rw [if_neg hne]
    by_cases hx : NodePath.extname f = s.extension
    · simp only [if_pos hx]
      have hinner : (compileM (countingEngine E) f c (Jmap.erase ctx "layout") s).run n =
          (Except.ok (E c (Jmap.erase ctx "layout")), n + 1) := by
        rw [compileM_get_none _ _ _ _ _ (Jmap.get_erase_self ctx "layout")]
        rw [plainCompile_count, if_pos hx, Jmap.erase_erase]
      rw [stateRun_bind, hinner]
      rfl
    · simp only [if_neg hx]
      rfl
  case _ heq =>
    rw [hL] at heq
    cases heq

theorem compileM_count_missing (E : String → Ctx → String) (f c : String)
    (ctx : Ctx) (s : Settings) (L : String) (n : Nat)
    (hL : Jmap.get ctx "layout" = some (Value.vstr L)) (hT : L ≠ "")
    (hmiss : layoutSourceOk s.layouts (NodePath.basenameStrip L s.extension) = false) :
    (compileM (countingEngine E) f c ctx s).run n =
      (Except.error (layoutErrMsg L f), n) := by
  rw [compileM.eq_def]
  split
  case _ lv heq =>
    rw [hL] at heq
    injection heq with heq
    subst heq
    rw [if_pos (by simp [Value.truthy, hT])]
    unfold layoutSourceOk at hmiss
    rcases hget : Jmap.get s.layouts (NodePath.basenameStrip L s.extension) with _ | src
    · simp only [hget]
      rfl
    · rw [hget] at hmiss
      have hsrc : src = "" := by simpa using hmiss
      simp only [hget, if_pos hsrc]
      rfl
  case _ heq =>
    rw [hL] at heq
    cases heq

theorem compileM_count_nonstr (E : String → Ctx → String) (f c : String)
    (ctx : Ctx) (s : Settings) (lv : Value) (n : Nat)
    (hL : Jmap.get ctx "layout" = some lv) (hT : lv.truthy = true)
    (hns : ∀ t, lv ≠ Value.vstr t) :
    (compileM (countingEngine E) f c ctx s).run n =
      (Except.error typeErrMsg, n) := by
  rw [compileM.eq_def]
  split
  case _ lv2 heq =>
    rw [hL] at heq
    injection heq with heq
    subst heq
    rw [if_pos hT]
    cases lv with
    | vstr t => exact absurd rfl (hns t)
    | vnum i => rfl
    | vbool b => rfl
    | vnull => rfl
  case _ heq =>
    rw [hL] at heq
    cases heq

theorem renderCalls_of_falsy (E : String → Ctx → String) (f c : String)
    (ctx : Ctx) (s : Settings) (h : layoutTruthy ctx = false) :
    renderCalls E f c ctx s = if NodePath.extname f = s.extension then 1 else 0 := by
  unfold renderCalls
  unfold layoutTruthy at h
  rcases hg : Jmap.get ctx "layout" with _ | lv
  · rw [compileM_get_none _ _ _ _ _ hg, plainCompile_count]
    by_cases hx : NodePath.extname f = s.extension
    · rw [if_pos hx, if_pos hx]
    · rw [if_neg hx, if_neg hx]
  · rw [hg] at h
    rw [compileM_get_falsy _ _ _ _ _ lv hg h, plainCompile_count]
    by_cases hx : NodePath.extname f = s.extension
    · rw [if_pos hx, if_pos hx]
    · rw [if_neg hx, if_neg hx]

theorem layoutResolves_spec (ctx : Ctx) (s : Settings)
    (h : layoutResolves ctx s = true) :
    ∃ L src, Jmap.get ctx "layout" = some (Value.vstr L) ∧ L ≠ "" ∧
      Jmap.get s.layouts (NodePath.basenameStrip L s.extension) = some src ∧
      src ≠ "" := by
  unfold layoutResolves at h
  rcases hg : Jmap.get ctx "layout" with _ | lv
  · rw [hg] at h
    cases h
  · rw [hg] at h
    cases lv with
    | vstr L =>
      simp only [Bool.and_eq_true] at h
      rcases hs : Jmap.get s.layouts (NodePath.basenameStrip L s.extension) with _ | src
      · rw [hs] at h
        simp at h
      · rw [hs] at h
        refine ⟨L, src, rfl, by simpa using h.1, hs, by simpa using h.2⟩
    | vnum i => simp at h
    | vbool b => simp at h
    | vnull => simp at h

theorem renderCalls_of_resolves (E : String → Ctx → String) (f c : String)
    (ctx : Ctx) (s : Settings) (h : layoutResolves ctx s = true) :
    renderCalls E f c ctx s = if NodePath.extname f = s.extension then 2 else 1 := by
  obtain ⟨L, src, hL, hT, hsrc, hne⟩ := layoutResolves_spec ctx s h
  unfold renderCalls
  rw [compileM_count_layout E f c ctx s L src 0 hL hT hsrc hne]
  exact Nat.zero_add _

theorem layoutResolves_of (ctx : Ctx) (s : Settings) (L : String)
    (hg : Jmap.get ctx "layout" = some (Value.vstr L)) (hT : L ≠ "")
    (hok : layoutSourceOk s.layouts (NodePath.basenameStrip L s.extension) = true) :
    layoutResolves ctx s = true := by
  unfold layoutResolves
  rw [hg]
  simp only [Bool.and_eq_true]
  constructor
  · simpa using hT
  · unfold layoutSourceOk at hok
    exact hok

theorem renderCalls_le_two (E : String → Ctx → String) (f c : String) (ctx : Ctx)
    (s : Settings) : renderCalls E f c ctx s ≤ 2 := by
  by_cases ht : layoutTruthy ctx = true
  · unfold layoutTruthy at ht
    rcases hg : Jmap.get ctx "layout" with _ | lv
    · rw [hg] at ht
      cases ht
    · rw [hg] at ht
      cases lv with
      | vstr L =>
        have hT : L ≠ "" := by simpa [Value.truthy] using ht
        by_cases hok : layoutSourceOk s.layouts (NodePath.basenameStrip L s.extension) = true
        · rw [renderCalls_of_resolves E f c ctx s (layoutResolves_of ctx s L hg hT hok)]
          split
          · exact Nat.le_refl 2
          · exact Nat.le_succ 1
        · have hok2 : layoutSourceOk s.layouts (NodePath.basenameStrip L s.extension) = false :=
            eq_false_of_ne_true hok
          unfold renderCalls
          rw [compileM_count_missing E f c ctx s L 0 hg hT hok2]
          exact Nat.zero_le 2
      | vnum i =>
        unfold renderCalls
        rw [compileM_count_nonstr E f c ctx s _ 0 hg ht (fun t hc => by cases hc)]
        exact Nat.zero_le 2
      | vbool b =>
        unfold renderCalls
        rw [compileM_count_nonstr E f c ctx s _ 0 hg ht (fun t hc => by cases hc)]
        exact Nat.zero_le 2
      | vnull =>
        unfold renderCalls
        rw [compileM_count_nonstr E f c ctx s _ 0 hg ht (fun t hc => by cases hc)]
        exact Nat.zero_le 2
  · rw [renderCalls_of_falsy E f c ctx s (eq_false_of_ne_true ht)]
    split
    · exact Nat.le_succ 1
    · exact Nat.zero_le 2

theorem renderAll_cons (E : String → Ctx → String) (s : Settings) (f : String)
    (rest : List String) (files : FileSet) :
    renderAll E s (f :: rest) files =
      match Jmap.get files f with
      | none => ((renderAll E s rest files).1, some typeErrMsg)
      | some file =>
        match render E f file s with
        | Except.ok v => renderAll E s rest (Jmap.set files f v)
        | Except.error e => ((renderAll E s rest files).1, some e) := rfl

theorem renderAll_keys (E : String → Ctx → String) (s : Settings)
    (valid : List String) :
    ∀ files : FileSet, Jmap.keys (renderAll E s valid files).1 = Jmap.keys files := by
  induction valid with
  | nil => intro files; rfl
  | cons f rest ih =>
    intro files
    rw [renderAll_cons]
    rcases hget : Jmap.get files f with _ | file
    · exact ih files
    · dsimp only
      rcases hr : render E f file s with e | v
      · exact ih files
      · dsimp only
        rw [ih (Jmap.set files f v)]
        exact Jmap.keys_set_of_get files f v file hget

theorem renderAll_err (E : String → Ctx → String) (s : Settings)
    (valid : List String) :
    ∀ (files : FileSet) (f : String) (file : VFile), f ∈ valid →
      Jmap.get files f = some file → (∃ e, render E f file s = Except.error e) →
      ∃ e, (renderAll E s valid files).2 = some e := by
  induction valid with
  | nil => intro files f file hmem _ _; cases hmem
  | cons g rest ih =>
    intro files f file hmem hget herr
    rw [renderAll_cons]
    rcases hget2 : Jmap.get files g with _ | fg
    · exact ⟨typeErrMsg, rfl⟩
    · dsimp only
      rcases hr : render E g fg s with e | v
      · exact ⟨e, rfl⟩
      · dsimp only
        by_cases hfg : f = g
        · subst hfg
          rw [hget] at hget2
          obtain rfl : file = fg := by injection hget2
          obtain ⟨e, he⟩ := herr
          rw [he] at hr
          cases hr
        · have hmem2 : f ∈ rest := by
            rcases List.mem_cons.mp hmem with h1 | h1
            · exact absurd h1 hfg
            · exact h1
          exact ih (Jmap.set files g v) f file hmem2
            ((Jmap.get_set_ne files g v f hfg).trans hget) herr

theorem renderAll_preserve (E : String → Ctx → String) (s : Settings)
    (valid : List String) :
    ∀ (files : FileSet) (f : String) (file : VFile),
      Jmap.get files f = some file → render E f file s = Except.ok file →
      Jmap.get (renderAll E s valid files).1 f = some file := by
  induction valid with
  | nil => intro files f file hget _; exact hget
  | cons g rest ih =>
    intro files f file hget hfix
    rw [renderAll_cons]
    rcases hget2 : Jmap.get files g with _ | fg
    · exact ih files f file hget hfix
    · dsimp only
      rcases hr : render E g fg s with e | v
      · exact ih files f file hget hfix
      · dsimp only
        by_cases hfg : f = g
        · subst hfg
          rw [hget] at hget2
          obtain rfl : file = fg := by injection hget2
          rw [hfix] at hr
          obtain rfl : file = v := by injection hr
          exact ih (Jmap.set files f file) f file
            (Jmap.get_set_self files f file) hfix
        · exact ih (Jmap.set files g v) f file
            ((Jmap.get_set_ne files g v f hfg).trans hget) hfix

theorem move_hit {α : Type} (files : List (String × α)) (f extension : String)
    (v : α) (hext : (NodePath.parse f).ext = extension)
    (hne : ¬(moveTarget f = f)) (hget : Jmap.get files f = some v) :
    move files f extension = Jmap.erase (Jmap.set files (moveTarget f) v) f := by
  unfold move
  rw [if_pos (by simp [hext, hne])]
  rw [hget]

theorem move_miss {α : Type} (files : List (String × α)) (f extension : String)
    (h : ¬((NodePath.parse f).ext = extension) ∨ moveTarget f = f) :
    move files f extension = files := by
  unfold move
  rcases h with h | h
  · rw [if_neg (by simp [h])]
  · rw [if_neg (by simp [h])]

theorem moveAll_cons {α : Type} (files : List (String × α)) (g : String)
    (rest : List String) (extension : String) :
    moveAll files (g :: rest) extension =
      moveAll (move files g extension) rest extension := rfl

theorem moveAll_preserve {α : Type} (valid : List String) :
    ∀ (files : List (String × α)) (extension f : String) (v : α),
      Jmap.get files f = some v → ¬((NodePath.parse f).ext = extension) →
      (∀ g ∈ valid, g ≠ f → moveTarget g ≠ f) →
      Jmap.get (moveAll files valid extension) f = some v := by
  induction valid with
  | nil => intro files extension f v hget _ _; exact hget
  | cons g rest ih =>
    intro files extension f v hget hfe htar
    rw [moveAll_cons]
    refine ih (move files g extension) extension f v ?_ hfe
      (fun g2 hg2 hne2 => htar g2 (List.mem_cons_of_mem g hg2) hne2)
    by_cases hfg : g = f
    · subst hfg
      rw [move_miss files g extension (Or.inl hfe)]
      exact hget
    · unfold move
      split
      · rcases hget2 : Jmap.get files g with _ | w
        · exact hget
        · have ht : moveTarget g ≠ f := htar g (List.mem_cons_self g rest) hfg
          rw [Jmap.get_erase_ne _ g f (fun hc => hfg hc.symm)]
          rw [Jmap.get_set_ne _ _ _ f (fun hc => ht hc.symm)]
          exact hget
      · exact hget

theorem loadLayoutsGo_ok (fs : FS) (extension : String) (names : List String) :
    ∀ m0 : List (String × String),
      (∀ n ∈ names, (Jmap.get fs n).isSome) →
      (∀ nm c, Jmap.get m0 nm = some c → ∃ p, Jmap.get fs p = some (FSEntry.file c)) →
      ∃ m, loadLayoutsGo fs extension names m0 = Except.ok m ∧
        ∀ nm c, Jmap.get m nm = some c → ∃ p, Jmap.get fs p = some (FSEntry.file c) := by
  induction names with
  | nil => intro m0 _ hm0; exact ⟨m0, rfl, hm0⟩
  | cons q rest ih =>
    intro m0 hex hm0
    have hexq : (Jmap.get fs q).isSome := hex q (List.mem_cons_self q rest)
    have hexr : ∀ n ∈ rest, (Jmap.get fs n).isSome :=
      fun n hn => hex n (List.mem_cons_of_mem q hn)
    rw [loadLayoutsGo]
    by_cases hqx : (NodePath.parse q).ext = extension
    · rw [if_neg (by simp [hqx])]
      rcases hfs : Jmap.get fs q with _ | entry
      · rw [hfs] at hexq
        cases hexq
      · cases entry with
        | file c =>
          have har : asyncRead fs q = Except.ok (some c) := by
            simp [asyncRead, fsReadFile, hfs]
          rw [har]
          dsimp only
          by_cases hc : c = ""
          · rw [if_pos hc]
            exact ih m0 hexr hm0
          · rw [if_neg hc]
            refine ih (Jmap.set m0 (NodePath.parse q).name c) hexr ?_
            intro nm c2 hget
            by_cases hnm : nm = (NodePath.parse q).name
            · subst hnm
              rw [Jmap.get_set_self] at hget
              obtain rfl : c = c2 := by injection hget
              exact ⟨q, hfs⟩
            · rw [Jmap.get_set_ne m0 _ c nm hnm] at hget
              exact hm0 nm c2 hget
        | subdir l =>
          have har : asyncRead fs q = Except.ok none := by
            simp [asyncRead, fsReadFile, hfs]
          rw [har]
          dsimp only
          exact ih m0 hexr hm0
    · rw [if_pos (by simp [hqx])]
      exact ih m0 hexr hm0

theorem layoutErrMsg_contains_layout (L f : String) :
    containsSub (layoutErrMsg L f) L := by
  refine ⟨"Layout \x27", "\x27 doesn\x27t exist. (from \x27" ++ f ++ "\x27)", ?_⟩
  simp [layoutErrMsg, String.append_assoc]

theorem layoutErrMsg_contains_file (L f : String) :
    containsSub (layoutErrMsg L f) f := by
  refine ⟨"Layout \x27" ++ L ++ "\x27 doesn\x27t exist. (from \x27", "\x27)", ?_⟩
  simp [layoutErrMsg, String.append_assoc]

theorem patternErrMsg_contains_pattern (p : String) :
    containsSub (patternErrMsg p) p := by
  refine ⟨"Pattern \x27", "\x27 did not match any files.", ?_⟩
  simp [patternErrMsg, String.append_assoc]

theorem Jmap.hasKey_set_false {α : Type} (m : List (String × α)) (j k : String)
    (v : α) (hm : Jmap.hasKey m k = false) (hj : ¬(j = k)) :
    Jmap.hasKey (Jmap.set m j v) k = false := by
  induction m with
  | nil => simp [Jmap.set, Jmap.hasKey, hj]
  | cons p rest ih =>
    rw [Jmap.hasKey_cons, Bool.or_eq_false_iff] at hm
    rw [Jmap.set_cons]
    by_cases hp : p.1 = j
    · rw [if_pos hp, Jmap.hasKey_cons, Bool.or_eq_false_iff]
      exact ⟨by simpa using hj, hm.2⟩
    · rw [if_neg hp, Jmap.hasKey_cons, Bool.or_eq_false_iff]
      exact ⟨hm.1, ih hm.2⟩

theorem Jmap.hasKey_merge_false {α : Type} (b : List (String × α)) :
    ∀ (a : List (String × α)) (k : String), Jmap.hasKey a k = false →
      Jmap.hasKey b k = false → Jmap.hasKey (Jmap.merge a b) k = false := by
  induction b with
  | nil => intro a k ha _; exact ha
  | cons p rest ih =>
    intro a k ha hb
    rw [Jmap.hasKey_cons, Bool.or_eq_false_iff] at hb
    have hp : ¬(p.1 = k) := by simpa using hb.1
    rw [Jmap.merge_cons]
    exact ih (Jmap.set a p.1 p.2) k (Jmap.hasKey_set_false a p.1 k p.2 ha hp) hb.2

theorem loadLayoutsGo_values (fs : FS) (extension : String) (names : List String) :
    ∀ m0 : List (String × String),
      (∀ nm c, Jmap.get m0 nm = some c → c ≠ "") →
      ∀ m, loadLayoutsGo fs extension names m0 = Except.ok m →
      ∀ nm c, Jmap.get m nm = some c → c ≠ "" := by
  induction names with
  | nil =>
    intro m0 h0 m hok
    obtain rfl : m0 = m := by injection hok
    exact h0
  | cons q rest ih =>
    intro m0 h0 m hok
    rw [loadLayoutsGo] at hok
    by_cases hqx : !((NodePath.parse q).ext = extension)
    · rw [if_pos hqx] at hok
      exact ih m0 h0 m hok
    · rw [if_neg hqx] at hok
      rcases har : asyncRead fs q with e | oc
      · rw [har] at hok
        cases hok
      · rw [har] at hok
        rcases oc with _ | c
        · exact ih m0 h0 m hok
        · dsimp only at hok
          by_cases hc : c = ""
          · rw [if_pos hc] at hok
            exact ih m0 h0 m hok
          · rw [if_neg hc] at hok
            refine ih (Jmap.set m0 (NodePath.parse q).name c) ?_ m hok
            intro nm c2 hget
            by_cases hnm : nm = (NodePath.parse q).name
            · subst hnm
              rw [Jmap.get_set_self] at hget
              obtain rfl : c = c2 := by injection hget
              exact hc
            · rw [Jmap.get_set_ne m0 _ c nm hnm] at hget
              exact h0 nm c2 hget

/-- Supporting fact for the hypotheses of the layout-branch claims: a layout
map produced by `loadLayouts` never stores an empty source (the loop skips
falsy reads), so a name present in `settings.layouts` always has a truthy
(nonempty) template source in an actual run. -/
theorem loadLayouts_values_nonempty (fs : FS) (d extension : String)
    (m : List (String × String)) (h : loadLayouts fs d extension = Except.ok m) :
    ∀ nm c, Jmap.get m nm = some c → c ≠ "" := by
  unfold loadLayouts at h
  rcases hlf : loadFiles fs d with e | names
  · rw [hlf] at h
    cases h
  · rw [hlf] at h
    exact loadLayoutsGo_values fs extension names [] (fun nm c hg => nomatch hg) m h

/-- C1: for every file whose merged context carries a `layout` directive
naming a layout present in `settings.layouts` (with a nonempty source, as
`loadLayouts` always produces -- see `loadLayouts_values_nonempty`),
`compile` returns the layout template rendered against the full pre-split
context (the `layout` key included) with `contents` bound to the inner
result; the inner result is the recursive compile of the raw contents
against the layout-stripped locals when the file extension equals
`settings.extension`, and the raw contents unchanged otherwise. -/
theorem c1_layout_wraps_full_context
    (E : String → Ctx → String) (f c : String) (ctx : Ctx) (s : Settings)
    (L src : String)
    (hL : Jmap.get ctx "layout" = some (Value.vstr L)) (hT : L ≠ "")
    (hsrc : Jmap.get s.layouts (NodePath.basenameStrip L s.extension) = some src)
    (hne : src ≠ "") :
    ∃ inner,
      compile E f c ctx s =
        Except.ok (E src (Jmap.set ctx "contents" (Value.vstr inner))) ∧
      (NodePath.extname f = s.extension →
        Except.ok inner = compile E f c (Jmap.erase ctx "layout") s) ∧
      (NodePath.extname f ≠ s.extension → inner = c) := by
  refine ⟨if NodePath.extname f = s.extension then E c (Jmap.erase ctx "layout") else c,
    compile_layout E f c ctx s L src hL hT hsrc hne, ?_, ?_⟩
  · intro hx
    rw [if_pos hx]
    rw [compile_get_none E f c (Jmap.erase ctx "layout") s (Jmap.get_erase_self ctx "layout")]
    rw [if_pos hx, Jmap.erase_erase]
  · intro hx
    rw [if_neg hx]

/-- Witness for C1 at a concrete run: a `.hbs` file with layout `main`. -/
theorem c1_witness :
    ∃ inner,
      compile idEngine "a.hbs" "body"
          [("layout", Value.vstr "main"), ("t", Value.vstr "x")]
          { metadata := [], extension := ".hbs", layouts := [("main", "LAY")] } =
        Except.ok (idEngine "LAY"
          (Jmap.set [("layout", Value.vstr "main"), ("t", Value.vstr "x")]
            "contents" (Value.vstr inner))) ∧
      (NodePath.extname "a.hbs" = ".hbs" →
        Except.ok inner =
          compile idEngine "a.hbs" "body"
            (Jmap.erase [("layout", Value.vstr "main"), ("t", Value.vstr "x")] "layout")
            { metadata := [], extension := ".hbs", layouts := [("main", "LAY")] }) ∧
      (NodePath.extname "a.hbs" ≠ ".hbs" → inner = "body") :=
  c1_layout_wraps_full_context idEngine "a.hbs" "body"
    [("layout", Value.vstr "main"), ("t", Value.vstr "x")]
    { metadata := [], extension := ".hbs", layouts := [("main", "LAY")] }
    "main" "LAY" (by decide) (by decide) (by decide) (by decide)

/-- C9: the locals passed to the nested recursive `compile` call have had
the `layout` key removed by the destructuring, so a context of the form
`erase ctx "layout"` -- the only shape reaching recursion depth one --
never takes the layout branch: the inner call reduces to the plain
templating path and can never wrap the content in a second layout. -/
theorem c9_inner_layout_unreachable (E : String → Ctx → String) (f c : String)
    (ctx : Ctx) (s : Settings) :
    Jmap.get (Jmap.erase ctx "layout") "layout" = none ∧
    compile E f c (Jmap.erase ctx "layout") s =
      (if NodePath.extname f = s.extension
       then Except.ok (E c (Jmap.erase ctx "layout"))
       else Except.ok c) := by
  refine ⟨Jmap.get_erase_self ctx "layout", ?_⟩
  rw [compile_get_none E f c (Jmap.erase ctx "layout") s (Jmap.get_erase_self ctx "layout")]
  rw [Jmap.erase_erase]

/-- C3: one `compile` call invokes the engine at most twice; exactly
`2` or `1` engine renders happen under a resolving layout directive
according to whether the file extension matches, and exactly `1` or `0`
without a truthy layout directive. Termination itself is built into the
total definition of `compileM`. -/
theorem c3_render_count (E : String → Ctx → String) (f c : String) (ctx : Ctx)
    (s : Settings) :
    renderCalls E f c ctx s ≤ 2 ∧
    (layoutResolves ctx s = true →
      renderCalls E f c ctx s = if NodePath.extname f = s.extension then 2 else 1) ∧
    (layoutTruthy ctx = false →
      renderCalls E f c ctx s = if NodePath.extname f = s.extension then 1 else 0) :=
  ⟨renderCalls_le_two E f c ctx s,
   fun h => renderCalls_of_resolves E f c ctx s h,
   fun h => renderCalls_of_falsy E f c ctx s h⟩

/-- Witness for C3: two renders for a layouted template file, zero for a
plain file with a non-matching extension. -/
theorem c3_witness :
    renderCalls idEngine "a.hbs" "body" [("layout", Value.vstr "main")]
      { metadata := [], extension := ".hbs", layouts := [("main", "LAY")] } = 2 ∧
    renderCalls idEngine "a.md" "body" []
      { metadata := [], extension := ".hbs", layouts := [("main", "LAY")] } = 0 := by
  constructor
  · have h := (c3_render_count idEngine "a.hbs" "body" [("layout", Value.vstr "main")]
      { metadata := [], extension := ".hbs", layouts := [("main", "LAY")] }).2.1 (by decide)
    rw [if_pos (by decide)] at h
    exact h
  · have h := (c3_render_count idEngine "a.md" "body" []
      { metadata := [], extension := ".hbs", layouts := [("main", "LAY")] }).2.2 (by decide)
    rw [if_neg (by decide)] at h
    exact h

/-- C6: `move` relocates an entry to directory + base name + `.html`
exactly when the old extension equals the configured extension and the new
name differs, leaving the set untouched otherwise; on the unit-test file
set with extension `.hbs` only `bar.hbs` moves, to `bar.html`. -/
theorem c6_move_renames :
    (∀ (α : Type) (files : List (String × α)) (f extension : String),
      (((NodePath.parse f).ext = extension ∧ moveTarget f ≠ f) →
        ∀ v, Jmap.get files f = some v →
          Jmap.get (move files f extension) (moveTarget f) = some v ∧
          Jmap.get (move files f extension) f = none ∧
          ∀ k, k ≠ f → k ≠ moveTarget f →
            Jmap.get (move files f extension) k = Jmap.get files k) ∧
      ((¬((NodePath.parse f).ext = extension) ∨ moveTarget f = f) →
        move files f extension = files)) ∧
    moveAll exampleFiles ["foo.html", "foobar.md", "bar.hbs"] ".hbs" =
      [("foo.html", "1234"), ("foobar.md", "abcd"), ("bar.html", "5678")] := by
  constructor
  · intro α files f extension
    constructor
    · rintro ⟨hext, hne⟩ v hget
      rw [move_hit files f extension v hext hne hget]
      refine ⟨?_, Jmap.get_erase_self _ f, ?_⟩
      · rw [Jmap.get_erase_ne _ f (moveTarget f) hne]
        exact Jmap.get_set_self files (moveTarget f) v
      · intro k hkf hkt
        rw [Jmap.get_erase_ne _ f k hkf]
        exact Jmap.get_set_ne files (moveTarget f) v k hkt
    · exact move_miss files f extension
  · rfl

/-- Witness for C6: the general branch applied to the unit-test file set. -/
theorem c6_witness :
    Jmap.get (move exampleFiles "bar.hbs" ".hbs") (moveTarget "bar.hbs") =
      some "5678" ∧
    Jmap.get (move exampleFiles "bar.hbs" ".hbs") "bar.hbs" = none ∧
    move exampleFiles "foobar.md" ".hbs" = exampleFiles := by
  have h := (c6_move_renames.1 String exampleFiles "bar.hbs" ".hbs").1
    ⟨by decide, by decide⟩ "5678" (by decide)
  exact ⟨h.1, h.2.1,
    (c6_move_renames.1 String exampleFiles "foobar.md" ".hbs").2 (Or.inl (by decide))⟩

/-- C10: when the computed new path already has an entry, `move` silently
overwrites it with the moved file value and deletes the old key, so the
pre-existing entry value is lost. -/
theorem c10_move_overwrites (α : Type) (files : List (String × α))
    (f extension : String) (v v0 : α)
    (hext : (NodePath.parse f).ext = extension) (hne : moveTarget f ≠ f)
    (hv : Jmap.get files f = some v)
    (hv0 : Jmap.get files (moveTarget f) = some v0) :
    Jmap.get (move files f extension) (moveTarget f) = some v ∧
    Jmap.get (move files f extension) f = none := by
  rw [move_hit files f extension v hext hne hv]
  constructor
  · rw [Jmap.get_erase_ne _ f (moveTarget f) hne]
    exact Jmap.get_set_self files (moveTarget f) v
  · exact Jmap.get_erase_self _ f

/-- Witness for C10: `bar.hbs` moving over an existing `bar.html` replaces
its value. -/
theorem c10_witness :
    Jmap.get (move [("bar.html", "OLD"), ("bar.hbs", "NEW")] "bar.hbs" ".hbs")
      (moveTarget "bar.hbs") = some "NEW" ∧
    Jmap.get (move [("bar.html", "OLD"), ("bar.hbs", "NEW")] "bar.hbs" ".hbs")
      "bar.hbs" = none :=
  c10_move_overwrites String [("bar.html", "OLD"), ("bar.hbs", "NEW")]
    "bar.hbs" ".hbs" "NEW" "OLD" (by decide) (by decide) (by decide) (by decide)

/-- C8: when the glob selects no files the run fails with the pattern
error, before any loading or rendering, and the file set is returned
untouched; the message names the pattern. -/
theorem c8_empty_match (glob : List String → String → List String)
    (E : String → Ctx → String) (fs : FS) (opts : Options) (msDir : String)
    (meta : Ctx) (files : FileSet)
    (h : glob (Jmap.keys files) opts.pattern = []) :
    plugin glob E fs opts msDir meta files =
      (files, some (patternErrMsg opts.pattern)) ∧
    containsSub (patternErrMsg opts.pattern) opts.pattern := by
  constructor
  · unfold plugin
    rw [h]
    rfl
  · exact patternErrMsg_contains_pattern opts.pattern

/-- Witness for C8: the test configuration with pattern `foo.bar` matching
nothing. -/
theorem c8_witness :
    plugin (fun _ _ => []) idEngine [] ⟨"foo.bar", ".hbs", none⟩ "/ms" []
        [("index.html", ⟨"x", []⟩)] =
      ([("index.html", ⟨"x", []⟩)], some (patternErrMsg "foo.bar")) ∧
    containsSub (patternErrMsg "foo.bar") "foo.bar" :=
  c8_empty_match (fun _ _ => []) idEngine [] ⟨"foo.bar", ".hbs", none⟩ "/ms" []
    [("index.html", ⟨"x", []⟩)] rfl

/-- C2 (amended): for a file whose extension matches and whose own locals
carry no `layout` key, *and whose global metadata also carries no `layout`
key*, the output is the raw contents rendered against the merge of global
metadata with the locals, where a local key overrides an identically named
global key. -/
theorem c2_plain_render_merged
    (E : String → Ctx → String) (f c : String) (g l : Ctx) (s : Settings)
    (hkg : Jmap.hasKey g "layout" = false) (hkl : Jmap.hasKey l "layout" = false)
    (hx : NodePath.extname f = s.extension) :
    compile E f c (Jmap.merge g l) s = Except.ok (E c (Jmap.merge g l)) ∧
    (∀ k v, (Jmap.keys l).Nodup → Jmap.get l k = some v →
      Jmap.get (Jmap.merge g l) k = some v) := by
  have hmk : Jmap.hasKey (Jmap.merge g l) "layout" = false :=
    Jmap.hasKey_merge_false l g "layout" hkg hkl
  constructor
  · rw [compile_get_none E f c (Jmap.merge g l) s
      (Jmap.get_eq_none_of_hasKey_false _ _ hmk)]
    rw [if_pos hx, Jmap.erase_of_hasKey_false _ _ hmk]
  · intro k v hnd hget
    exact Jmap.get_merge_right l g k v hnd hget

/-- C2 counterexample: a file with no `layout` key of its own and a
matching extension is *not* rendered plainly when the global metadata
supplies a truthy `layout` key -- the layout branch fires instead, so the
claim as stated (quantified over every file with no layout key) fails. -/
theorem c2_counterexample :
    compile idEngine "page.hbs" "hello"
        (Jmap.merge [("layout", Value.vstr "main")] ([] : Ctx))
        ⟨[("layout", Value.vstr "main")], ".hbs", [("main", "LAYOUT")]⟩ ≠
      Except.ok (idEngine "hello"
        (Jmap.merge [("layout", Value.vstr "main")] ([] : Ctx))) := by
  intro hcontra
  rw [compile_layout idEngine "page.hbs" "hello"
    (Jmap.merge [("layout", Value.vstr "main")] ([] : Ctx))
    ⟨[("layout", Value.vstr "main")], ".hbs", [("main", "LAYOUT")]⟩
    "main" "LAYOUT" (by decide) (by decide) (by decide) (by decide)] at hcontra
  injection hcontra with h2
  exact absurd h2 (by decide)

/-- Witness for C2: a file with locals overriding nothing, global `author`
metadata, no layout anywhere. -/
theorem c2_witness :
    compile idEngine "a.hbs" "body"
        (Jmap.merge [("author", Value.vstr "Me")] [("t", Value.vstr "x")])
        ⟨[("author", Value.vstr "Me")], ".hbs", []⟩ =
      Except.ok (idEngine "body"
        (Jmap.merge [("author", Value.vstr "Me")] [("t", Value.vstr "x")])) ∧
    Jmap.get (Jmap.merge [("author", Value.vstr "Me")] [("t", Value.vstr "x")]) "t" =
      some (Value.vstr "x") :=
  ⟨(c2_plain_render_merged idEngine "a.hbs" "body" [("author", Value.vstr "Me")]
      [("t", Value.vstr "x")] ⟨[("author", Value.vstr "Me")], ".hbs", []⟩
      (by decide) (by decide) (by decide)).1,
   (c2_plain_render_merged idEngine "a.hbs" "body" [("author", Value.vstr "Me")]
      [("t", Value.vstr "x")] ⟨[("author", Value.vstr "Me")], ".hbs", []⟩
      (by decide) (by decide) (by decide)).2 "t" (Value.vstr "x")
      (by decide) (by decide)⟩

/-- C4: a truthy `layout` directive whose stripped base name has no truthy
entry in the loaded layouts makes `compile` throw an error naming both the
layout and the file; any run containing such a selected file fails
(`done(err)`) and performs no rename: the key set of the file set is
unchanged. -/
theorem c4_missing_layout
    (glob : List String → String → List String) (E : String → Ctx → String)
    (fs : FS) (opts : Options) (msDir : String) (meta : Ctx) (files : FileSet)
    (f : String) (file : VFile) (layouts : List (String × String)) (L : String)
    (hload : loadLayoutsOpt fs msDir opts.layouts opts.extension = Except.ok layouts)
    (hsel : f ∈ glob (Jmap.keys files) opts.pattern)
    (hget : Jmap.get files f = some file)
    (hL : Jmap.get (Jmap.merge (settingsMetadata msDir meta) file.locals) "layout" =
      some (Value.vstr L))
    (hT : L ≠ "")
    (hmiss : layoutSourceOk layouts (NodePath.basenameStrip L opts.extension) = false) :
    compile E f file.contents
        (Jmap.merge (settingsMetadata msDir meta) file.locals)
        (mkSettings msDir meta opts.extension layouts) =
      Except.error (layoutErrMsg L f) ∧
    containsSub (layoutErrMsg L f) L ∧
    containsSub (layoutErrMsg L f) f ∧
    (∃ e, (plugin glob E fs opts msDir meta files).2 = some e) ∧
    Jmap.keys (plugin glob E fs opts msDir meta files).1 = Jmap.keys files := by
  have hcomp : compile E f file.contents
      (Jmap.merge (settingsMetadata msDir meta) file.locals)
      (mkSettings msDir meta opts.extension layouts) =
      Except.error (layoutErrMsg L f) :=
    compile_layout_missing E f file.contents
      (Jmap.merge (settingsMetadata msDir meta) file.locals)
      (mkSettings msDir meta opts.extension layouts) L hL hT hmiss
  have hrend : render E f file (mkSettings msDir meta opts.extension layouts) =
      Except.error (layoutErrMsg L f) := by
    unfold render
    rw [show (mkSettings msDir meta opts.extension layouts).metadata =
      settingsMetadata msDir meta from rfl]
    rw [hcomp]
    rfl
  have hvalid : glob (Jmap.keys files) opts.pattern ≠ [] := List.ne_nil_of_mem hsel
  have herr := renderAll_err E (mkSettings msDir meta opts.extension layouts)
    (glob (Jmap.keys files) opts.pattern) files f file hsel hget
    ⟨layoutErrMsg L f, hrend⟩
  obtain ⟨e, he⟩ := herr
  refine ⟨hcomp, layoutErrMsg_contains_layout L f, layoutErrMsg_contains_file L f, ?_, ?_⟩
  · unfold plugin
    rw [if_neg (fun hlen => hvalid (List.length_eq_zero.mp hlen))]
    rw [hload]
    dsimp only
    unfold runLoaded
    rw [he]
    exact ⟨e, rfl⟩
  · unfold plugin
    rw [if_neg (fun hlen => hvalid (List.length_eq_zero.mp hlen))]
    rw [hload]
    dsimp only
    unfold runLoaded
    rw [he]
    exact renderAll_keys E (mkSettings msDir meta opts.extension layouts)
      (glob (Jmap.keys files) opts.pattern) files

/-- Witness for C4: one selected `.hbs` file referencing the absent layout
`nope` with no layouts directory configured. -/
theorem c4_witness :
    compile idEngine "a.hbs"
        (VFile.mk "body" [("layout", Value.vstr "nope")]).contents
        (Jmap.merge (settingsMetadata "/ms" [])
          (VFile.mk "body" [("layout", Value.vstr "nope")]).locals)
        (mkSettings "/ms" [] ".hbs" []) =
      Except.error (layoutErrMsg "nope" "a.hbs") ∧
    containsSub (layoutErrMsg "nope" "a.hbs") "nope" ∧
    containsSub (layoutErrMsg "nope" "a.hbs") "a.hbs" ∧
    (∃ e, (plugin globAll idEngine [] ⟨"**/*.hbs", ".hbs", none⟩ "/ms" []
      [("a.hbs", VFile.mk "body" [("layout", Value.vstr "nope")])]).2 = some e) ∧
    Jmap.keys (plugin globAll idEngine [] ⟨"**/*.hbs", ".hbs", none⟩ "/ms" []
        [("a.hbs", VFile.mk "body" [("layout", Value.vstr "nope")])]).1 =
      Jmap.keys [("a.hbs", VFile.mk "body" [("layout", Value.vstr "nope")])] :=
  c4_missing_layout globAll idEngine [] ⟨"**/*.hbs", ".hbs", none⟩ "/ms" []
    [("a.hbs", VFile.mk "body" [("layout", Value.vstr "nope")])] "a.hbs"
    (VFile.mk "body" [("layout", Value.vstr "nope")]) [] "nope"
    rfl (by decide) (by decide) (by decide) (by decide) (by decide)

/-- C5 (amended): a selected file with no `layout` key in its own locals
and an extension different from the configured one keeps its entry
byte-identical through the run, provided additionally that the global
metadata carries no `layout` key and that no other selected file renames
onto this file\x27s path. -/
theorem c5_passthrough_preserved
    (glob : List String → String → List String) (E : String → Ctx → String)
    (fs : FS) (opts : Options) (msDir : String) (meta : Ctx) (files : FileSet)
    (f : String) (file : VFile) (layouts : List (String × String))
    (hload : loadLayoutsOpt fs msDir opts.layouts opts.extension = Except.ok layouts)
    (hsel : f ∈ glob (Jmap.keys files) opts.pattern)
    (hget : Jmap.get files f = some file)
    (hkl : Jmap.hasKey file.locals "layout" = false)
    (hkm : Jmap.hasKey meta "layout" = false)
    (hx1 : ¬(NodePath.extname f = opts.extension))
    (hx2 : ¬((NodePath.parse f).ext = opts.extension))
    (htar : ∀ g ∈ glob (Jmap.keys files) opts.pattern, g ≠ f → moveTarget g ≠ f) :
    Jmap.get (plugin glob E fs opts msDir meta files).1 f = some file := by
  have hkbase : Jmap.hasKey [("__dirname", Value.vstr msDir)] "layout" = false := by
    simp [Jmap.hasKey]
  have hkmeta : Jmap.hasKey (settingsMetadata msDir meta) "layout" = false :=
    Jmap.hasKey_merge_false meta [("__dirname", Value.vstr msDir)] "layout" hkbase hkm
  have hkmerged : Jmap.hasKey
      (Jmap.merge (settingsMetadata msDir meta) file.locals) "layout" = false :=
    Jmap.hasKey_merge_false file.locals (settingsMetadata msDir meta) "layout" hkmeta hkl
  have hcomp : compile E f file.contents
      (Jmap.merge (settingsMetadata msDir meta) file.locals)
      (mkSettings msDir meta opts.extension layouts) = Except.ok file.contents := by
    rw [compile_get_none E f file.contents
      (Jmap.merge (settingsMetadata msDir meta) file.locals)
      (mkSettings msDir meta opts.extension layouts)
      (Jmap.get_eq_none_of_hasKey_false _ _ hkmerged)]
    rw [show (mkSettings msDir meta opts.extension layouts).extension =
      opts.extension from rfl]
    rw [if_neg hx1]
  have hrend : render E f file (mkSettings msDir meta opts.extension layouts) =
      Except.ok file := by
    unfold render
    rw [show (mkSettings msDir meta opts.extension layouts).metadata =
      settingsMetadata msDir meta from rfl]
    rw [hcomp]
    rfl
  have hpres : Jmap.get (renderAll E (mkSettings msDir meta opts.extension layouts)
      (glob (Jmap.keys files) opts.pattern) files).1 f = some file :=
    renderAll_preserve E (mkSettings msDir meta opts.extension layouts)
      (glob (Jmap.keys files) opts.pattern) files f file hget hrend
  have hvalid : glob (Jmap.keys files) opts.pattern ≠ [] := List.ne_nil_of_mem hsel
  unfold plugin
  rw [if_neg (fun hlen => hvalid (List.length_eq_zero.mp hlen))]
  rw [hload]
  dsimp only
  unfold runLoaded
  rcases hr2 : (renderAll E (mkSettings msDir meta opts.extension layouts)
      (glob (Jmap.keys files) opts.pattern) files).2 with _ | e
  · dsimp only
    exact moveAll_preserve (glob (Jmap.keys files) opts.pattern)
      (renderAll E (mkSettings msDir meta opts.extension layouts)
        (glob (Jmap.keys files) opts.pattern) files).1
      opts.extension f file hpres hx2 htar
  · dsimp only
    exact hpres

/-- C5 counterexample: the claim as stated fails in two concrete runs.
First run: `page.md` is selected, carries no `layout` key and has a
non-matching extension, yet its contents change from `hello` to `LAYOUT`
because the *global metadata* supplies `layout: main`. Second run:
`bar.html` is selected, has no `layout` key and a non-matching extension,
yet after the rename pass its entry holds `NEW` because `bar.hbs` is
renamed onto `bar.html`, overwriting it. -/
theorem c5_counterexample :
    Jmap.get (plugin globAll idEngine
        [("/ms/layouts", FSEntry.subdir ["main.hbs"]),
         ("/ms/layouts/main.hbs", FSEntry.file "LAYOUT")]
        ⟨"**/*", ".hbs", some "layouts"⟩ "/ms" [("layout", Value.vstr "main")]
        [("page.md", VFile.mk "hello" [])]).1 "page.md" =
      some (VFile.mk "LAYOUT" []) ∧
    some (VFile.mk "LAYOUT" ([] : Ctx)) ≠ some (VFile.mk "hello" ([] : Ctx)) ∧
    Jmap.get (plugin globAll idEngine [] ⟨"*", ".hbs", none⟩ "/ms" []
        [("bar.html", VFile.mk "OLD" []), ("bar.hbs", VFile.mk "NEW" [])]).1
      "bar.html" = some (VFile.mk "NEW" []) ∧
    some (VFile.mk "NEW" ([] : Ctx)) ≠ some (VFile.mk "OLD" ([] : Ctx)) := by
  refine ⟨?_, by decide, ?_, by decide⟩
  · have hc : compile idEngine "page.md" "hello"
        (Jmap.merge (settingsMetadata "/ms" [("layout", Value.vstr "main")])
          (VFile.mk "hello" []).locals)
        (mkSettings "/ms" [("layout", Value.vstr "main")] ".hbs" [("main", "LAYOUT")]) =
        Except.ok "LAYOUT" := by
      rw [compile_layout idEngine "page.md" "hello" _ _ "main" "LAYOUT"
        (by decide) (by decide) (by decide) (by decide)]
      rfl
    have hrendA : render idEngine "page.md" (VFile.mk "hello" [])
        (mkSettings "/ms" [("layout", Value.vstr "main")] ".hbs" [("main", "LAYOUT")]) =
        Except.ok (VFile.mk "LAYOUT" []) := by
      unfold render
      rw [show (mkSettings "/ms" [("layout", Value.vstr "main")] ".hbs"
        [("main", "LAYOUT")]).metadata =
        settingsMetadata "/ms" [("layout", Value.vstr "main")] from rfl]
      rw [hc]
      rfl
    have hload2 : loadLayoutsOpt [("/ms/layouts", FSEntry.subdir ["main.hbs"]),
        ("/ms/layouts/main.hbs", FSEntry.file "LAYOUT")] "/ms" (some "layouts") ".hbs" =
        Except.ok [("main", "LAYOUT")] := rfl
    have hkeys : Jmap.keys [("page.md", VFile.mk "hello" [])] = ["page.md"] := rfl
    have hvalid : globAll ["page.md"] "**/*" = ["page.md"] := rfl
    have hra : renderAll idEngine
        (mkSettings "/ms" [("layout", Value.vstr "main")] ".hbs" [("main", "LAYOUT")])
        ["page.md"] [("page.md", VFile.mk "hello" [])] =
        ([("page.md", VFile.mk "LAYOUT" [])], none) := by
      rw [renderAll_cons]
      simp only [show Jmap.get [("page.md", VFile.mk "hello" [])] "page.md" =
        some (VFile.mk "hello" []) from rfl, hrendA]
      rfl
    unfold plugin
    rw [hkeys, hvalid, hload2]
    rw [if_neg (by decide)]
    dsimp only
    unfold runLoaded
    rw [hra]
    dsimp only
    decide
  · have hcB1 : compile idEngine "bar.html" "OLD"
        (Jmap.merge (settingsMetadata "/ms" []) (VFile.mk "OLD" []).locals)
        (mkSettings "/ms" [] ".hbs" []) = Except.ok "OLD" := by
      rw [compile_get_none idEngine "bar.html" "OLD"
        (Jmap.merge (settingsMetadata "/ms" []) (VFile.mk "OLD" []).locals)
        (mkSettings "/ms" [] ".hbs" []) (by decide)]
      rw [if_neg (by decide)]
    have hcB2 : compile idEngine "bar.hbs" "NEW"
        (Jmap.merge (settingsMetadata "/ms" []) (VFile.mk "NEW" []).locals)
        (mkSettings "/ms" [] ".hbs" []) = Except.ok "NEW" := by
      rw [compile_get_none idEngine "bar.hbs" "NEW"
        (Jmap.merge (settingsMetadata "/ms" []) (VFile.mk "NEW" []).locals)
        (mkSettings "/ms" [] ".hbs" []) (by decide)]
      rw [if_pos (by decide)]
      rfl
    have hrB1 : render idEngine "bar.html" (VFile.mk "OLD" [])
        (mkSettings "/ms" [] ".hbs" []) = Except.ok (VFile.mk "OLD" []) := by
      unfold render
      rw [show (mkSettings "/ms" [] ".hbs" []).metadata =
        settingsMetadata "/ms" [] from rfl]
      rw [hcB1]
      rfl
    have hrB2 : render idEngine "bar.hbs" (VFile.mk "NEW" [])
        (mkSettings "/ms" [] ".hbs" []) = Except.ok (VFile.mk "NEW" []) := by
      unfold render
      rw [show (mkSettings "/ms" [] ".hbs" []).metadata =
        settingsMetadata "/ms" [] from rfl]
      rw [hcB2]
      rfl
    have hraB : renderAll idEngine (mkSettings "/ms" [] ".hbs" [])
        ["bar.html", "bar.hbs"]
        [("bar.html", VFile.mk "OLD" []), ("bar.hbs", VFile.mk "NEW" [])] =
        ([("bar.html", VFile.mk "OLD" []), ("bar.hbs", VFile.mk "NEW" [])], none) := by
      rw [renderAll_cons]
      simp only [show Jmap.get
        [("bar.html", VFile.mk "OLD" []), ("bar.hbs", VFile.mk "NEW" [])] "bar.html" =
        some (VFile.mk "OLD" []) from rfl, hrB1]
      rw [renderAll_cons]
      simp only [show Jmap.get (Jmap.set
        [("bar.html", VFile.mk "OLD" []), ("bar.hbs", VFile.mk "NEW" [])] "bar.html"
        (VFile.mk "OLD" [])) "bar.hbs" = some (VFile.mk "NEW" []) from rfl, hrB2]
      rfl
    have hkeysB : Jmap.keys
        [("bar.html", VFile.mk "OLD" []), ("bar.hbs", VFile.mk "NEW" [])] =
        ["bar.html", "bar.hbs"] := rfl
    have hvalidB : globAll ["bar.html", "bar.hbs"] "*" = ["bar.html", "bar.hbs"] := rfl
    unfold plugin
    rw [hkeysB, hvalidB]
    rw [show loadLayoutsOpt [] "/ms" none ".hbs" = Except.ok [] from rfl]
    rw [if_neg (by decide)]
    dsimp only
    unfold runLoaded
    rw [hraB]
    dsimp only
    decide

/-- Witness for C5 (amended): a plain text file untouched by a run that
also renders one real template. -/
theorem c5_witness :
    Jmap.get (plugin globAll idEngine [] ⟨"*", ".hbs", none⟩ "/ms" []
        [("doc.md", VFile.mk "txt" []), ("a.hbs", VFile.mk "t" [])]).1 "doc.md" =
      some (VFile.mk "txt" []) :=
  c5_passthrough_preserved globAll idEngine [] ⟨"*", ".hbs", none⟩ "/ms" []
    [("doc.md", VFile.mk "txt" []), ("a.hbs", VFile.mk "t" [])] "doc.md"
    (VFile.mk "txt" []) [] rfl (by decide) (by decide) (by decide) (by decide)
    (by decide) (by decide) (by decide)

/-- C7 (amended): loading layouts with an *unset* directory option yields
an empty map and no error, and a listed entry that is itself a directory
is silently skipped -- every entry of the resulting map is the contents of
an actual file; but a *set* path that does not exist on disk makes the
loader fail with ENOENT rather than yield an empty result (see the
counterexample). -/
theorem c7_loader_behavior (fs : FS) (base extension d : String)
    (names : List String)
    (hdir : loadFiles fs (resolvePath base d) = Except.ok names)
    (hex : ∀ n ∈ names, (Jmap.get fs n).isSome) :
    loadLayoutsOpt fs base none extension = Except.ok [] ∧
    ∃ m, loadLayoutsOpt fs base (some d) extension = Except.ok m ∧
      ∀ nm c, Jmap.get m nm = some c → ∃ p, Jmap.get fs p = some (FSEntry.file c) := by
  refine ⟨rfl, ?_⟩
  unfold loadLayoutsOpt
  dsimp only
  unfold loadLayouts
  rw [hdir]
  exact loadLayoutsGo_ok fs extension names [] hex (fun nm c h => nomatch h)

/-- C7 counterexample: a configured layouts path that does not exist makes
the run fail with ENOENT instead of yielding an empty layout map. -/
theorem c7_counterexample :
    loadLayoutsOpt ([] : FS) "/ms" (some "missing") ".hbs" =
      Except.error (IOErr.enoent "/ms/missing") ∧
    loadLayoutsOpt ([] : FS) "/ms" (some "missing") ".hbs" ≠ Except.ok [] := by
  refine ⟨rfl, ?_⟩
  intro h
  cases h

/-- Witness for C7: a layouts directory holding one template file and one
subdirectory; the subdirectory is skipped without error. -/
theorem c7_witness :
    loadLayoutsOpt [("/b/l", FSEntry.subdir ["x.hbs", "sub"]),
        ("/b/l/x.hbs", FSEntry.file "X"), ("/b/l/sub", FSEntry.subdir [])]
      "/b" none ".hbs" = Except.ok [] ∧
    ∃ m, loadLayoutsOpt [("/b/l", FSEntry.subdir ["x.hbs", "sub"]),
        ("/b/l/x.hbs", FSEntry.file "X"), ("/b/l/sub", FSEntry.subdir [])]
      "/b" (some "l") ".hbs" = Except.ok m ∧
      ∀ nm c, Jmap.get m nm = some c →
        ∃ p, Jmap.get [("/b/l", FSEntry.subdir ["x.hbs", "sub"]),
          ("/b/l/x.hbs", FSEntry.file "X"), ("/b/l/sub", FSEntry.subdir [])] p =
          some (FSEntry.file c) :=
  c7_loader_behavior [("/b/l", FSEntry.subdir ["x.hbs", "sub"]),
      ("/b/l/x.hbs", FSEntry.file "X"), ("/b/l/sub", FSEntry.subdir [])]
    "/b" ".hbs" "l" ["/b/l/x.hbs", "/b/l/sub"] rfl (by decide)

end MH
